import Mathlib

/-!
Shallow embedding of the `tsup-sequential-build-plugin` repository.

The embedding covers the two components the specification describes:

* `BuildStateManager` (file `src/build-state-manager.class.ts`, event-driven
  revision): a registry holding the registered-build set, the completed-build
  set and the set of completion callbacks.  JavaScript `Set`s preserve
  insertion order and ignore duplicate insertions, so each set is modelled as
  a duplicate-free list in insertion order, with `setAdd` as the `Set.add`
  operation.  Completion callbacks are opaque handles (`Nat`); the effect of
  invoking them is recorded in an explicit invocation log of
  `(callback, identifier)` pairs.

* the sequential-build gate (file `src/index.ts`): `onStart` registers the
  build identifier `<package>-<format>`, filters the pending builds through
  the regular expression `^<package>-[^-]+$`, and either returns immediately
  or suspends on a promise resolved by a completion listener.  The regular
  expression is embedded by `regexTest`, which interprets the interpolated
  package characters literally except for `.` (the wildcard); this matches
  the JavaScript semantics for every package identifier whose characters are
  either non-metacharacters or `.`.
-/

namespace SeqBuild

/-- Insertion into a JavaScript `Set` of strings kept in insertion order:
append when absent, no-op when present. -/
def setAdd (l : List String) (x : String) : List String :=
  if l.contains x then l else l ++ [x]

/-- Insertion into a JavaScript `Set` of callback handles. -/
def setAddNat (l : List Nat) (x : Nat) : List Nat :=
  if l.contains x then l else l ++ [x]

/-- State of the `BuildStateManager` singleton: the three collections
`registeredBuilds`, `completedBuilds` and `buildCompletionCallbacks`. -/
structure BuildStateManager where
  registeredBuilds : List String
  completedBuilds : List String
  buildCompletionCallbacks : List Nat
  deriving Repr, DecidableEq

/-- The freshly constructed manager: all three collections empty. -/
def initState : BuildStateManager :=
  { registeredBuilds := [], completedBuilds := [], buildCompletionCallbacks := [] }

/-- `registerBuild`: records the previous size, adds the identifier to the
registered set, and reports whether the size grew. -/
def registerBuild (s : BuildStateManager) (identifier : String) :
    BuildStateManager × Bool :=
  let previousSize := s.registeredBuilds.length
  let reg := setAdd s.registeredBuilds identifier
  ({ s with registeredBuilds := reg }, decide (previousSize < reg.length))

/-- `isBuildRegistered`. -/
def isBuildRegistered (s : BuildStateManager) (identifier : String) : Bool :=
  s.registeredBuilds.contains identifier

/-- `isBuildCompleted`. -/
def isBuildCompleted (s : BuildStateManager) (identifier : String) : Bool :=
  s.completedBuilds.contains identifier

/-- `isBuildPending`: registered and not completed. -/
def isBuildPending (s : BuildStateManager) (identifier : String) : Bool :=
  isBuildRegistered s identifier && !isBuildCompleted s identifier

/-- `hasRegisteredBuilds`. -/
def hasRegisteredBuilds (s : BuildStateManager) : Bool :=
  decide (0 < s.registeredBuilds.length)

/-- `hasCompletedBuilds`. -/
def hasCompletedBuilds (s : BuildStateManager) : Bool :=
  decide (0 < s.completedBuilds.length)

/-- `hasPendingBuilds`: compares the sizes of the registered and completed
sets, exactly as the source does. -/
def hasPendingBuilds (s : BuildStateManager) : Bool :=
  decide (s.completedBuilds.length < s.registeredBuilds.length)

/-- `getRegisteredBuilds` (`Array.from` of the set, i.e. insertion order). -/
def getRegisteredBuilds (s : BuildStateManager) : List String :=
  s.registeredBuilds

/-- `getCompletedBuilds`. -/
def getCompletedBuilds (s : BuildStateManager) : List String :=
  s.completedBuilds

/-- `getPendingBuilds`: the registered builds whose identifier is not in the
completed set. -/
def getPendingBuilds (s : BuildStateManager) : List String :=
  (getRegisteredBuilds s).filter (fun identifier => !s.completedBuilds.contains identifier)

/-- The mutation performed by the successful branch of `completeBuild`:
`completedBuilds.add identifier`, i.e. append to the completed set. -/
def markCompleted (s : BuildStateManager) (identifier : String) : BuildStateManager :=
  { s with completedBuilds := s.completedBuilds ++ [identifier] }

/-- `completeBuild`: throws (`Except.error`) when the identifier is not
registered; returns silently when it is already completed; otherwise adds it
to the completed set and reports that the completion callbacks fired. -/
def completeBuild (s : BuildStateManager) (identifier : String) :
    Except String (BuildStateManager × Bool) :=
  if !s.registeredBuilds.contains identifier then
    .error ("Build \"" ++ identifier ++ "\" not registered")
  else if s.completedBuilds.contains identifier then
    .ok (s, false)
  else
    .ok (markCompleted s identifier, true)

/-- `onBuildCompleted`: adds a callback handle to the callback set. -/
def onBuildCompleted (s : BuildStateManager) (c : Nat) : BuildStateManager :=
  { s with buildCompletionCallbacks := setAddNat s.buildCompletionCallbacks c }

/-- The unregister capability returned by `onBuildCompleted`: deletes the
callback handle from the callback set. -/
def unregisterCallback (s : BuildStateManager) (c : Nat) : BuildStateManager :=
  { s with buildCompletionCallbacks := s.buildCompletionCallbacks.erase c }

/-- `clear`: empties all three collections. -/
def clearState (s : BuildStateManager) : BuildStateManager :=
  { s with registeredBuilds := [], completedBuilds := [],
           buildCompletionCallbacks := [] }

/-- One externally triggered registry operation. -/
inductive Op where
  | register (identifier : String)
  | complete (identifier : String)
  | addListener (c : Nat)
  | removeListener (c : Nat)
  | clear
  deriving Repr, DecidableEq

/-- The invocation log: one `(callback, identifier)` entry per callback
invocation, in the order the invocations happen. -/
abbrev Log := List (Nat × String)

/-- One step of the registry together with its invocation log.  A
`complete` of an unregistered identifier throws before mutating anything, so
the state and log are returned unchanged. -/
def stepOp (p : BuildStateManager × Log) (op : Op) : BuildStateManager × Log :=
  match op with
  | .register identifier => ((registerBuild p.1 identifier).1, p.2)
  | .complete identifier =>
      match completeBuild p.1 identifier with
      | .error _ => p
      | .ok (s, fired) =>
          (s, p.2 ++ if fired then s.buildCompletionCallbacks.map (fun c => (c, identifier)) else [])
  | .addListener c => (onBuildCompleted p.1 c, p.2)
  | .removeListener c => (unregisterCallback p.1 c, p.2)
  | .clear => (clearState p.1, p.2)

/-- Run a list of operations from a given state and log. -/
def runFrom (p : BuildStateManager × Log) (ops : List Op) : BuildStateManager × Log :=
  ops.foldl stepOp p

/-- Run a list of operations from the freshly constructed manager. -/
def run (ops : List Op) : BuildStateManager × Log :=
  runFrom (initState, []) ops

/-! ### The sequential-build gate (`src/index.ts`) -/

/-- The `tsup` output formats (`Format` union type). -/
inductive Format where
  | cjs
  | esm
  | iife
  deriving Repr, DecidableEq

/-- `build.initialOptions.format || 'unknown'`: the format string, with the
sentinel `"unknown"` when the host driver reports none. -/
def formatString : Option Format → String
  | some .cjs => "cjs"
  | some .esm => "esm"
  | some .iife => "iife"
  | none => "unknown"

/-- The build identifier `<packageIdentifier>-<buildFormat>`. -/
def buildIdentifier (pkg : String) (fmt : Option Format) : String :=
  pkg ++ "-" ++ formatString fmt

/-- JavaScript regular-expression metacharacters that may appear in an
interpolated package identifier. -/
def isRegexMeta (c : Char) : Bool :=
  c == '\\' || c == '^' || c == '$' || c == '.' || c == '*' || c == '+' ||
  c == '?' || c == '(' || c == ')' || c == '[' || c == ']' ||
  c == '\x7b' || c == '\x7d' || c == '|'

/-- Package identifiers inside the modelled regular-expression fragment:
every character is either not a metacharacter or the wildcard `.`.  For such
packages `regexTest` agrees with the JavaScript semantics of
`new RegExp('^' + pkg + '-[^-]+$')`. -/
def modeledGroup (pkg : String) : Bool :=
  pkg.toList.all (fun c => !isRegexMeta c || c == '.')

/-- Package identifiers all of whose characters are regular-expression
literals (no metacharacter at all, in particular no wildcard `.`). -/
def literalGroup (pkg : String) : Bool :=
  pkg.toList.all (fun c => !isRegexMeta c)

/-- One pattern character of the interpolated package part: `.` matches any
character, anything else matches itself. -/
def charMatches (p c : Char) : Bool :=
  p == '.' || p == c

/-- The `-[^-]+$` suffix of the pattern: a literal hyphen followed by one or
more non-hyphen characters, ending there. -/
def tailMatch : List Char → Bool
  | [] => false
  | c :: rest => c == '-' && !rest.isEmpty && rest.all (fun d => !(d == '-'))

/-- `new RegExp('^' + pkg + '-[^-]+$').test s`: the candidate must start
with a character-wise match of `pkg`, followed by a literal hyphen, followed
by one or more non-hyphen characters, and end there. -/
def regexTest (pkg s : String) : Bool :=
  let pl := pkg.toList
  let sl := s.toList
  decide (pl.length ≤ sl.length) &&
  ((pl.zip (sl.take pl.length)).all fun pc => charMatches pc.1 pc.2) &&
  tailMatch (sl.drop pl.length)

/-- The filtered pending list computed by `onStart` right after registering
the build: `getPendingBuilds()` minus the identifiers matched by the package
regular expression. -/
def otherGroupPending (pkg : String) (fmt : Option Format)
    (s : BuildStateManager) : List String :=
  let s1 := (registerBuild s (buildIdentifier pkg fmt)).1
  (getPendingBuilds s1).filter (fun identifier => !regexTest pkg identifier)

/-- State of one gate after its `onStart` hook ran: the manager, the
captured dependency list when the hook returned a promise (`waiting`), and
whether that promise has been resolved. -/
structure GateState where
  mgr : BuildStateManager
  waiting : Option (List String)
  resolved : Bool
  deriving Repr, DecidableEq

/-- The `onStart` hook: register the build identifier, compute the filtered
pending list, and either return immediately (`waiting = none`, when every
element of the list is completed) or return a promise with the captured
list and a subscribed completion listener. -/
def gateOnStart (pkg : String) (fmt : Option Format)
    (s : BuildStateManager) : GateState :=
  let s1 := (registerBuild s (buildIdentifier pkg fmt)).1
  let pendingBuilds := otherGroupPending pkg fmt s
  if pendingBuilds.all (fun identifier => isBuildCompleted s1 identifier) then
    { mgr := s1, waiting := none, resolved := false }
  else
    { mgr := s1, waiting := some pendingBuilds, resolved := false }

/-- An event observed by a waiting gate: some other unit registers, or some
unit's end hook completes a build. -/
inductive GateOp where
  | register (identifier : String)
  | complete (identifier : String)
  deriving Repr, DecidableEq

/-- One event step for a gate.  A `complete` runs `completeBuild`; when the
callbacks fire and the gate's listener is still subscribed, the listener
checks `pendingBuilds.includes identifier && areDependentBuildsCompleted ()`
against the updated manager, and on success unregisters itself and resolves
the promise. -/
def gateStep (g : GateState) (op : GateOp) : Except String GateState :=
  match op with
  | .register identifier =>
      .ok { g with mgr := (registerBuild g.mgr identifier).1 }
  | .complete identifier =>
      match completeBuild g.mgr identifier with
      | .error e => .error e
      | .ok (m, fired) =>
          if fired then
            match g.waiting with
            | some pendingBuilds =>
                if pendingBuilds.contains identifier &&
                    pendingBuilds.all (fun d => isBuildCompleted m d) then
                  .ok { mgr := m, waiting := none, resolved := true }
                else
                  .ok { mgr := m, waiting := some pendingBuilds, resolved := g.resolved }
            | none => .ok { g with mgr := m }
          else
            .ok { g with mgr := m }

/-- Run a list of events through a waiting gate, stopping at the first
thrown error. -/
def gateRun (g : GateState) : List GateOp → Except String GateState
  | [] => .ok g
  | op :: rest =>
      match gateStep g op with
      | .error e => .error e
      | .ok g1 => gateRun g1 rest

/-- Membership rule as the specification words it: an identifier `s` belongs
to group `g` iff `s` is `g` followed by the hyphen separator followed by one
or more non-separator characters.  This is the specification-side definition
used to compare the source's regular-expression test against. -/
def specGroupMember (g s : String) : Prop :=
  ∃ v : String, v.toList ≠ [] ∧ (∀ ch ∈ v.toList, ch ≠ '-') ∧ s = g ++ "-" ++ v

/-- Executable form of `specGroupMember`: the identifier starts with `g`
itself (character-wise equality, no wildcard), followed by a hyphen and one
or more non-hyphen characters. -/
def specGroupMemberB (g s : String) : Bool :=
  let gl := g.toList
  let sl := s.toList
  (sl.take gl.length == gl) && tailMatch (sl.drop gl.length)

/-- The state invariant preserved by every registry operation: the two
identifier collections are duplicate-free and the completed set is a subset
of the registered set. -/
def stateInv (s : BuildStateManager) : Prop :=
  s.registeredBuilds.Nodup ∧ s.completedBuilds.Nodup ∧
  ∀ x ∈ s.completedBuilds, x ∈ s.registeredBuilds

/-- Invariant of a gate whose `onStart` hook captured the dependency list
`cap`: either the gate is still waiting on exactly `cap` and some captured
dependency is not yet completed, or the promise has been resolved and every
captured dependency is completed. -/
def GateInv (cap : List String) (g : GateState) : Prop :=
  (g.waiting = some cap ∧ g.resolved = false ∧
    ∃ d ∈ cap, isBuildCompleted g.mgr d = false) ∨
  (g.waiting = none ∧ g.resolved = true ∧
    ∀ d ∈ cap, isBuildCompleted g.mgr d = true)

/-! ### Helper lemmas -/

theorem string_toList_ne_nil (v : String) (h : v ≠ "") : v.toList ≠ [] := by
  intro h2
  apply h
  cases v
  simp_all [String.toList]

theorem count_map_pair (l : List Nat) (c : Nat) (x : String) :
    (l.map (fun d => (d, x))).count (c, x) = l.count c := by
  induction l with
  | nil => simp
  | cons y ys ih => simp [List.count_cons, ih]

theorem count_map_pair_ne (l : List Nat) (c : Nat) (x y : String) (h : x ≠ y) :
    (l.map (fun d => (d, y))).count (c, x) = 0 := by
  induction l with
  | nil => simp
  | cons z zs ih => simp [List.count_cons, ih, h]

theorem stateInv_init : stateInv initState := by
  simp [stateInv, initState]

theorem stateInv_step (p : BuildStateManager × Log) (op : Op)
    (h : stateInv p.1) : stateInv (stepOp p op).1 := by
  obtain ⟨hr, hc, hsub⟩ := h
  cases op with
  | register i =>
      by_cases hi : i ∈ p.1.registeredBuilds
      · simpa [stepOp, registerBuild, setAdd, stateInv, hi] using ⟨hr, hc, hsub⟩
      · refine ⟨?_, ?_, ?_⟩ <;>
          simp [stepOp, registerBuild, setAdd, stateInv, hi, hr, hc,
            List.nodup_append]
        intro x hx
        exact Or.inl (hsub x hx)
  | complete i =>
      by_cases hreg : i ∈ p.1.registeredBuilds
      · by_cases hcom : i ∈ p.1.completedBuilds
        · simpa [stepOp, completeBuild, markCompleted, stateInv, hreg, hcom] using ⟨hr, hc, hsub⟩
        · refine ⟨?_, ?_, ?_⟩ <;>
            simp [stepOp, completeBuild, markCompleted, stateInv, hreg, hcom, hr, hc,
              List.nodup_append]
          intro x hx
          rcases hx with hx | hx
          · exact hsub x hx
          · subst hx; exact hreg
      · simpa [stepOp, completeBuild, markCompleted, stateInv, hreg] using ⟨hr, hc, hsub⟩
  | addListener c =>
      simpa [stepOp, onBuildCompleted, stateInv] using ⟨hr, hc, hsub⟩
  | removeListener c =>
      simpa [stepOp, unregisterCallback, stateInv] using ⟨hr, hc, hsub⟩
  | clear =>
      simp [stepOp, clearState, stateInv]

theorem stateInv_runFrom (ops : List Op) :
    ∀ p : BuildStateManager × Log, stateInv p.1 → stateInv (runFrom p ops).1 := by
  induction ops with
  | nil => intro p h; simpa [runFrom] using h
  | cons op rest ih =>
      intro p h
      have : runFrom p (op :: rest) = runFrom (stepOp p op) rest := rfl
      rw [this]
      exact ih _ (stateInv_step p op h)

theorem stateInv_run (ops : List Op) : stateInv (run ops).1 :=
  stateInv_runFrom ops _ stateInv_init

/-! ### Claim theorems -/

/-- C4: `completeBuild x` raises `UnregisteredBuildError` if and only if `x`
is not in the registered set at the time of the call; on a registered `x`
the call returns normally. -/
theorem completeBuild_error_iff_unregistered (s : BuildStateManager) (x : String) :
    (completeBuild s x = .error ("Build \"" ++ x ++ "\" not registered") ↔
      isBuildRegistered s x = false) ∧
    (isBuildRegistered s x = true → ∃ r, completeBuild s x = .ok r) := by
  by_cases hreg : x ∈ s.registeredBuilds
  · by_cases hcom : x ∈ s.completedBuilds <;>
      simp [completeBuild, markCompleted, isBuildRegistered, hreg, hcom]
  · simp [completeBuild, markCompleted, isBuildRegistered, hreg]

/-- C6: registration is idempotent and reports novelty: after
`registerBuild x` the identifier is registered; the call returns `true`
exactly when `x` was not already registered; a second `registerBuild x`
returns `false` and leaves the state unchanged; and a fresh `x` occurs
exactly once in the registered-identifiers sequence afterwards. -/
theorem registerBuild_idempotent_reports_novelty (s : BuildStateManager) (x : String) :
    isBuildRegistered (registerBuild s x).1 x = true ∧
    ((registerBuild s x).2 = true ↔ isBuildRegistered s x = false) ∧
    (registerBuild (registerBuild s x).1 x).2 = false ∧
    (registerBuild (registerBuild s x).1 x).1 = (registerBuild s x).1 ∧
    (isBuildRegistered s x = false →
      (registerBuild s x).1.registeredBuilds.count x = 1) := by
  by_cases hx : x ∈ s.registeredBuilds
  · simp [registerBuild, setAdd, isBuildRegistered, hx]
  · have hcount : s.registeredBuilds.count x = 0 := List.count_eq_zero.2 hx
    simp [registerBuild, setAdd, isBuildRegistered, hx, hcount]

/-- C10: `completeBuild` is atomic on error: completing an unregistered
identifier throws and leaves the registry state and the invocation log
entirely unchanged — no completion listener is invoked. -/
theorem completeBuild_unregistered_no_mutation (s : BuildStateManager) (l : Log)
    (x : String) (h : isBuildRegistered s x = false) :
    completeBuild s x = .error ("Build \"" ++ x ++ "\" not registered") ∧
    stepOp (s, l) (.complete x) = (s, l) := by
  have hx : x ∉ s.registeredBuilds := by
    simpa [isBuildRegistered] using h
  simp [completeBuild, markCompleted, stepOp, hx]

/-- Witness for C10 at the fresh manager and identifier `"x"`. -/
theorem completeBuild_unregistered_no_mutation_witness :
    completeBuild initState "x" = .error ("Build \"" ++ "x" ++ "\" not registered") ∧
    stepOp (initState, []) (.complete "x") = (initState, []) :=
  completeBuild_unregistered_no_mutation initState [] "x" (by decide)

/-- C5: completion is idempotent: from a state where `x` is not completed,
`register x; complete x; complete x` fires the completion callbacks exactly
once each for `x`, the second `complete` is a silent no-op that changes
neither the state nor the log, and `x` occurs exactly once in the completed
set. -/
theorem complete_idempotent (s : BuildStateManager) (l : Log) (x : String)
    (h : isBuildCompleted s x = false) :
    stepOp (stepOp (stepOp (s, l) (.register x)) (.complete x)) (.complete x) =
      stepOp (stepOp (s, l) (.register x)) (.complete x) ∧
    (stepOp (stepOp (s, l) (.register x)) (.complete x)).2 =
      l ++ s.buildCompletionCallbacks.map (fun c => (c, x)) ∧
    (s.buildCompletionCallbacks.Nodup →
      ∀ c ∈ s.buildCompletionCallbacks,
        (stepOp (stepOp (s, l) (.register x)) (.complete x)).2.count (c, x) =
          l.count (c, x) + 1) ∧
    (stepOp (stepOp (s, l) (.register x)) (.complete x)).1.completedBuilds.count x = 1 := by
  have hx : x ∉ s.completedBuilds := by
    simpa [isBuildCompleted] using h
  have hcount : s.completedBuilds.count x = 0 := List.count_eq_zero.2 hx
  by_cases hr : x ∈ s.registeredBuilds <;>
    refine ⟨?_, ?_, ?_, ?_⟩ <;>
      simp [stepOp, registerBuild, setAdd, completeBuild, markCompleted, hr, hx, hcount,
        List.count_append, count_map_pair]
  all_goals
    intro hnd c hcmem
    simp [List.count_eq_one_of_mem hnd hcmem]

/-- C7: in every reachable registry state, the completed set is a subset of
the registered set, and a pending unit is exactly one that is registered and
not completed. -/
theorem completed_subset_registered_invariant (ops : List Op) :
    (∀ x ∈ (run ops).1.completedBuilds, x ∈ (run ops).1.registeredBuilds) ∧
    (∀ x, isBuildPending (run ops).1 x =
      (isBuildRegistered (run ops).1 x && !isBuildCompleted (run ops).1 x)) :=
  ⟨(stateInv_run ops).2.2, fun _ => rfl⟩

theorem pending_length_iff (reg comp : List String) (hr : reg.Nodup)
    (hc : comp.Nodup) (hsub : ∀ x ∈ comp, x ∈ reg) :
    comp.length < reg.length ↔ reg.filter (fun x => !comp.contains x) ≠ [] := by
  constructor
  · intro hlen hfil
    have hsub2 : ∀ x ∈ reg, x ∈ comp := by
      intro x hx
      have := (List.filter_eq_nil_iff.1 hfil) x hx
      simpa using this
    have h1 : reg.toFinset ⊆ comp.toFinset := by
      intro a ha
      simp only [List.mem_toFinset] at ha ⊢
      exact hsub2 a ha
    have h2 := Finset.card_le_card h1
    rw [List.toFinset_card_of_nodup hr, List.toFinset_card_of_nodup hc] at h2
    omega
  · intro hfil
    obtain ⟨y, hy⟩ := List.exists_mem_of_ne_nil _ hfil
    obtain ⟨hyreg, hyc⟩ := List.mem_filter.1 hy
    have hynotc : y ∉ comp := by simpa using hyc
    have h1 : (y :: comp).toFinset ⊆ reg.toFinset := by
      intro a ha
      simp only [List.toFinset_cons, Finset.mem_insert, List.mem_toFinset] at ha ⊢
      rcases ha with rfl | ha
      · exact hyreg
      · exact hsub a ha
    have h2 := Finset.card_le_card h1
    have h3 : (y :: comp).Nodup := List.nodup_cons.2 ⟨hynotc, hc⟩
    rw [List.toFinset_card_of_nodup h3, List.toFinset_card_of_nodup hr] at h2
    simp only [List.length_cons] at h2
    omega

/-- C9: in every reachable registry state, `hasPendingBuilds` — although it
compares set sizes — is true iff some identifier is registered and not
completed, iff `getPendingBuilds` is non-empty; and after
`register "a"; register "b"; complete "b"` the pending list is `["a"]` and
`hasPendingBuilds` is true. -/
theorem hasPendingBuilds_iff_pending_nonempty (ops : List Op) :
    (hasPendingBuilds (run ops).1 = true ↔ getPendingBuilds (run ops).1 ≠ []) ∧
    (hasPendingBuilds (run ops).1 = true ↔
      ∃ x, isBuildPending (run ops).1 x = true) ∧
    getPendingBuilds (run [.register "a", .register "b", .complete "b"]).1 = ["a"] ∧
    hasPendingBuilds (run [.register "a", .register "b", .complete "b"]).1 = true := by
  obtain ⟨hr, hc, hsub⟩ := stateInv_run ops
  have key := pending_length_iff _ _ hr hc hsub
  have hkey : hasPendingBuilds (run ops).1 = true ↔
      (run ops).1.completedBuilds.length < (run ops).1.registeredBuilds.length := by
    simp [hasPendingBuilds]
  refine ⟨?_, ?_, by decide, by decide⟩
  · rw [hkey]
    exact key
  · rw [hkey, key]
    constructor
    · intro hne
      obtain ⟨y, hy⟩ := List.exists_mem_of_ne_nil _ hne
      obtain ⟨hyreg, hyc⟩ := List.mem_filter.1 hy
      refine ⟨y, ?_⟩
      have : y ∉ (run ops).1.completedBuilds := by simpa using hyc
      simp [isBuildPending, isBuildRegistered, isBuildCompleted, hyreg, this]
    · rintro ⟨x, hx⟩
      have hx2 : x ∈ (run ops).1.registeredBuilds ∧
          x ∉ (run ops).1.completedBuilds := by
        simpa [isBuildPending, isBuildRegistered, isBuildCompleted] using hx
      have : x ∈ (run ops).1.registeredBuilds.filter
          (fun z => !(run ops).1.completedBuilds.contains z) := by
        refine List.mem_filter.2 ⟨hx2.1, ?_⟩
        simpa using hx2.2
      exact List.ne_nil_of_mem this

theorem count_runFrom_completed (x : String) (c : Nat) :
    ∀ (post : List Op) (p : BuildStateManager × Log),
      Op.clear ∉ post → x ∈ p.1.completedBuilds →
      (runFrom p post).2.count (c, x) = p.2.count (c, x) := by
  intro post
  induction post with
  | nil =>
      intro p _ _
      rfl
  | cons op rest ih =>
      intro p hnc hx
      obtain ⟨s, l⟩ := p
      have hnc2 : Op.clear ∉ rest := fun h => hnc (List.mem_cons_of_mem _ h)
      have hop : op ≠ Op.clear := fun h => hnc (h ▸ List.mem_cons_self _ _)
      have hstep : runFrom (s, l) (op :: rest) = runFrom (stepOp (s, l) op) rest := rfl
      rw [hstep]
      cases op with
      | register i =>
          exact ih _ hnc2 hx
      | complete i =>
          by_cases hreg : i ∈ s.registeredBuilds
          · by_cases hcom : i ∈ s.completedBuilds
            · have hdef : stepOp (s, l) (.complete i) = (s, l ++ []) := by
                simp [stepOp, completeBuild, markCompleted, hreg, hcom]
              rw [hdef, ih (s, l ++ []) hnc2 hx]
              simp
            · have hne : x ≠ i := fun h => hcom (h ▸ hx)
              have hdef : stepOp (s, l) (.complete i) =
                  ({ s with completedBuilds := s.completedBuilds ++ [i] },
                    l ++ s.buildCompletionCallbacks.map (fun d => (d, i))) := by
                simp [stepOp, completeBuild, markCompleted, hreg, hcom]
              rw [hdef,
                ih ({ s with completedBuilds := s.completedBuilds ++ [i] },
                  l ++ s.buildCompletionCallbacks.map (fun d => (d, i))) hnc2
                  (List.mem_append_left _ hx)]
              simp [List.count_append, count_map_pair_ne _ _ _ _ hne]
          · have hdef : stepOp (s, l) (.complete i) = (s, l) := by
              simp [stepOp, completeBuild, markCompleted, hreg]
            rw [hdef]
            exact ih _ hnc2 hx
      | addListener d =>
          exact ih _ hnc2 hx
      | removeListener d =>
          exact ih _ hnc2 hx
      | clear =>
          exact absurd rfl hop

/-- C8: a completion listener fires only for completions after its
registration: a listener added after `x` has completed is never invoked
with `x` as long as no `clear` intervenes, and a subscribed listener is
invoked for every effective completion. -/
theorem listener_no_replay_and_delivery :
    (∀ (pre post : List Op) (c : Nat) (x : String),
        Op.clear ∉ post →
        isBuildCompleted (run pre).1 x = true →
        (run (pre ++ Op.addListener c :: post)).2.count (c, x) =
          (run pre).2.count (c, x)) ∧
    (∀ (s : BuildStateManager) (l : Log) (c : Nat) (x : String),
        c ∈ s.buildCompletionCallbacks →
        isBuildPending s x = true →
        (stepOp (s, l) (.complete x)).2 =
          l ++ s.buildCompletionCallbacks.map (fun d => (d, x)) ∧
        (c, x) ∈ (stepOp (s, l) (.complete x)).2) := by
  constructor
  · intro pre post c x hnc hx
    have hsplit : run (pre ++ Op.addListener c :: post) =
        runFrom (stepOp (run pre) (.addListener c)) post := by
      simp [run, runFrom, List.foldl_append]
    rw [hsplit]
    have hx2 : x ∈ (stepOp (run pre) (.addListener c)).1.completedBuilds := by
      have : x ∈ (run pre).1.completedBuilds := by
        simpa [isBuildCompleted] using hx
      simpa [stepOp, onBuildCompleted] using this
    exact count_runFrom_completed x c post _ hnc hx2
  · intro s l c x hc hx
    have hp : x ∈ s.registeredBuilds ∧ x ∉ s.completedBuilds := by
      simpa [isBuildPending, isBuildRegistered, isBuildCompleted] using hx
    refine ⟨by simp [stepOp, completeBuild, markCompleted, hp.1, hp.2], ?_⟩
    simp [stepOp, completeBuild, markCompleted, hp.1, hp.2]
    exact Or.inr hc

/-- Witness for C8: the no-replay part at a trace completing `"x"` before
the listener is added, and the delivery part at a one-listener manager. -/
theorem listener_no_replay_and_delivery_witness :
    ((run ([Op.register "x", Op.complete "x"] ++
        Op.addListener 0 :: [Op.register "y", Op.complete "y"])).2.count (0, "x") =
      (run [Op.register "x", Op.complete "x"]).2.count (0, "x")) ∧
    ((stepOp (⟨["x"], [], [0]⟩, ([] : Log)) (.complete "x")).2 =
      [] ++ ([0] : List Nat).map (fun d => (d, "x")) ∧
      ((0 : Nat), "x") ∈ (stepOp (⟨["x"], [], [0]⟩, ([] : Log)) (.complete "x")).2) :=
  ⟨listener_no_replay_and_delivery.1 [Op.register "x", Op.complete "x"]
      [Op.register "y", Op.complete "y"] 0 "x" (by decide) (by decide),
    listener_no_replay_and_delivery.2 ⟨["x"], [], [0]⟩ [] 0 "x" (by decide) (by decide)⟩

theorem string_ext (s t : String) (h : s.data = t.data) : s = t := by
  cases s
  cases t
  exact congrArg String.mk h

theorem toList_append_sep (g v : String) :
    (g ++ "-" ++ v).toList = g.toList ++ '-' :: v.toList := by
  show (g ++ "-" ++ v).data = g.data ++ '-' :: v.data
  simp [String.data_append]

theorem charMatches_self (p : Char) : charMatches p p = true := by
  simp [charMatches]

theorem zip_self_all_charMatches (l : List Char) :
    ((l.zip l).all fun pc => charMatches pc.1 pc.2) = true := by
  induction l with
  | nil => rfl
  | cons x xs ih => simpa [charMatches_self] using ih

theorem tailMatch_sep (vl : List Char) (hv : vl ≠ [])
    (hv2 : ∀ ch ∈ vl, ch ≠ '-') : tailMatch ('-' :: vl) = true := by
  simp only [tailMatch]
  simp [hv, List.all_eq_true]
  intro c hcm
  exact hv2 c hcm

theorem regexTest_self_append (pkg v : String) (hv : v.toList ≠ [])
    (hv2 : ∀ ch ∈ v.toList, ch ≠ '-') :
    regexTest pkg (pkg ++ "-" ++ v) = true := by
  simp only [regexTest, toList_append_sep, List.take_left, List.drop_left]
  rw [zip_self_all_charMatches, tailMatch_sep v.toList hv hv2]
  simp [List.length_append]

theorem formatString_ne_nil (fmt : Option Format) :
    (formatString fmt).toList ≠ [] := by
  cases fmt with
  | none => decide
  | some f => cases f <;> decide

theorem formatString_no_hyphen (fmt : Option Format) :
    ∀ ch ∈ (formatString fmt).toList, ch ≠ '-' := by
  cases fmt with
  | none => decide
  | some f => cases f <;> decide

theorem gateOnStart_eq (pkg : String) (fmt : Option Format) (s : BuildStateManager) :
    gateOnStart pkg fmt s =
      if (otherGroupPending pkg fmt s).all
          (fun identifier =>
            isBuildCompleted (registerBuild s (buildIdentifier pkg fmt)).1 identifier)
      then { mgr := (registerBuild s (buildIdentifier pkg fmt)).1,
             waiting := none, resolved := false }
      else { mgr := (registerBuild s (buildIdentifier pkg fmt)).1,
             waiting := some (otherGroupPending pkg fmt s), resolved := false } :=
  rfl

theorem otherGroupPending_all_completed_iff (pkg : String) (fmt : Option Format)
    (s : BuildStateManager) :
    (((otherGroupPending pkg fmt s).all fun i =>
        isBuildCompleted (registerBuild s (buildIdentifier pkg fmt)).1 i) = true) ↔
      otherGroupPending pkg fmt s = [] := by
  constructor
  · intro hA
    cases hpendc : otherGroupPending pkg fmt s with
    | nil => rfl
    | cons y ys =>
        exfalso
        have hy : y ∈ otherGroupPending pkg fmt s := by
          rw [hpendc]
          exact List.mem_cons_self _ _
        have hy2 := (List.mem_filter.1 hy).1
        have hy3 := List.mem_filter.1 hy2
        have hyC : isBuildCompleted (registerBuild s (buildIdentifier pkg fmt)).1 y = false := by
          simpa [isBuildCompleted] using hy3.2
        have := List.all_eq_true.1 hA y hy
        rw [hyC] at this
        exact Bool.false_ne_true this
  · intro h
    rw [h]
    rfl

/-- C2: the start hook returns without suspending iff the other-group
pending set computed at that moment is empty; an empty registry yields an
immediate return; and same-group identifiers never appear in the computed
other-group pending set. -/
theorem onStart_immediate_iff_no_other_group_pending (pkg : String)
    (fmt : Option Format) (s : BuildStateManager)
    (_hpkg : modeledGroup pkg = true) :
    ((gateOnStart pkg fmt s).waiting = none ↔ otherGroupPending pkg fmt s = []) ∧
    (gateOnStart pkg fmt initState).waiting = none ∧
    (∀ v : String, v ≠ "" → (∀ ch ∈ v.toList, ch ≠ '-') →
      (pkg ++ "-" ++ v) ∉ otherGroupPending pkg fmt s) := by
  refine ⟨?_, ?_, ?_⟩
  · rw [gateOnStart_eq]
    by_cases hA : ((otherGroupPending pkg fmt s).all fun i =>
        isBuildCompleted (registerBuild s (buildIdentifier pkg fmt)).1 i) = true
    · rw [if_pos hA]
      simpa using (otherGroupPending_all_completed_iff pkg fmt s).1 hA
    · rw [if_neg hA]
      simp only []
      constructor
      · intro h
        exact absurd h (by simp)
      · intro h
        exact absurd ((otherGroupPending_all_completed_iff pkg fmt s).2 h) hA
  · have hself : regexTest pkg (buildIdentifier pkg fmt) = true :=
      regexTest_self_append pkg (formatString fmt) (formatString_ne_nil fmt)
        (formatString_no_hyphen fmt)
    have hpend : otherGroupPending pkg fmt initState = [] := by
      simp [otherGroupPending, registerBuild, setAdd, initState,
        getPendingBuilds, getRegisteredBuilds, hself]
    rw [gateOnStart_eq, hpend]
    rfl
  · intro v hv hv2 hmem
    have hsplit := List.mem_filter.1 hmem
    have hrt : regexTest pkg (pkg ++ "-" ++ v) = true :=
      regexTest_self_append pkg v (string_toList_ne_nil v hv) hv2
    rw [hrt] at hsplit
    simpa using hsplit.2

/-- Witness for C2 at the same-group-parallelism scenario: `"main-cjs"` is
registered and pending, yet starting group `"main"`, variant `"esm"` does
not suspend. -/
theorem onStart_immediate_iff_witness :
    ((gateOnStart "main" (some .esm)
        ⟨["main-cjs"], [], []⟩).waiting = none ↔
      otherGroupPending "main" (some .esm) ⟨["main-cjs"], [], []⟩ = []) ∧
    (gateOnStart "main" (some .esm) initState).waiting = none ∧
    (∀ v : String, v ≠ "" → (∀ ch ∈ v.toList, ch ≠ '-') →
      ("main" ++ "-" ++ v) ∉
        otherGroupPending "main" (some .esm) ⟨["main-cjs"], [], []⟩) :=
  onStart_immediate_iff_no_other_group_pending "main" (some .esm)
    ⟨["main-cjs"], [], []⟩ (by decide)

theorem zip_all_charMatches_of_literal :
    ∀ (a t : List Char), (∀ p ∈ a, p ≠ '.') → t.length = a.length →
      ((((a.zip t).all fun pc => charMatches pc.1 pc.2) = true) ↔ t = a) := by
  intro a
  induction a with
  | nil =>
      intro t _ h
      have h0 : t.length = 0 := by simpa using h
      rw [List.length_eq_zero] at h0
      subst h0
      simp
  | cons x xs ih =>
      intro t hnd h
      cases t with
      | nil => simp at h
      | cons y ys =>
          have hx : x ≠ '.' := hnd x (List.mem_cons_self _ _)
          have hxs : ∀ p ∈ xs, p ≠ '.' := fun p hp => hnd p (List.mem_cons_of_mem _ hp)
          have hlen : ys.length = xs.length := by simpa using h
          have hih := ih ys hxs hlen
          simp only [List.zip_cons_cons, List.all_cons, Bool.and_eq_true, hih]
          constructor
          · rintro ⟨h1, h2⟩
            have hxy : x = y := by
              simpa [charMatches, hx] using h1
            simp [h2, hxy]
          · intro h2
            obtain ⟨rfl, rfl⟩ : y = x ∧ ys = xs := by
              simpa using h2
            exact ⟨by simp [charMatches], rfl⟩

theorem regexTest_eq_specB (g s : String) (hg : literalGroup g = true) :
    regexTest g s = specGroupMemberB g s := by
  have hnd : ∀ p ∈ g.toList, p ≠ '.' := by
    intro p hp hdot
    have := List.all_eq_true.1 hg p hp
    subst hdot
    simp [isRegexMeta] at this
  by_cases hlen : g.toList.length ≤ s.toList.length
  · have hlt : (s.toList.take g.toList.length).length = g.toList.length := by
      rw [List.length_take]
      exact Nat.min_eq_left hlen
    have hz := zip_all_charMatches_of_literal g.toList
      (s.toList.take g.toList.length) hnd hlt
    have hzb : ((g.toList.zip (s.toList.take g.toList.length)).all
        fun pc => charMatches pc.1 pc.2) =
        (s.toList.take g.toList.length == g.toList) := by
      rw [Bool.eq_iff_iff, hz, beq_iff_eq]
    have hdec : decide (g.toList.length ≤ s.toList.length) = true :=
      decide_eq_true hlen
    simp only [regexTest, specGroupMemberB, hzb, hdec, Bool.true_and]
  · have hslt : s.toList.length < g.toList.length := Nat.lt_of_not_le hlen
    have htake : s.toList.take g.toList.length = s.toList :=
      List.take_of_length_le (Nat.le_of_lt hslt)
    have hbeq : (s.toList.take g.toList.length == g.toList) = false := by
      rw [htake]
      by_cases hb : s.toList = g.toList
      · rw [hb] at hslt
        omega
      · simpa using hb
    have hdec : decide (g.toList.length ≤ s.toList.length) = false :=
      decide_eq_false hlen
    simp only [regexTest, specGroupMemberB, hbeq, hdec, Bool.false_and]

theorem specGroupMember_iff (g s : String) :
    specGroupMember g s ↔ specGroupMemberB g s = true := by
  constructor
  · rintro ⟨v, hne, hnh, rfl⟩
    have htl : (g ++ "-" ++ v).toList = g.toList ++ '-' :: v.toList :=
      toList_append_sep g v
    simp only [specGroupMemberB, htl, List.take_left, List.drop_left]
    rw [tailMatch_sep v.toList hne hnh]
    simp
  · intro hB
    simp only [specGroupMemberB, Bool.and_eq_true] at hB
    obtain ⟨htake, htail⟩ := hB
    have htake2 : s.toList.take g.toList.length = g.toList := by
      simpa using htake
    rcases hdrop : s.toList.drop g.toList.length with _ | ⟨c, rest⟩
    · rw [hdrop] at htail
      simp [tailMatch] at htail
    · rw [hdrop] at htail
      simp only [tailMatch, Bool.and_eq_true] at htail
      obtain ⟨⟨hc, hrest1⟩, hrest2⟩ := htail
      have hc2 : c = '-' := by simpa using hc
      subst hc2
      refine ⟨⟨rest⟩, ?_, ?_, ?_⟩
      · show rest ≠ []
        intro h
        rw [h] at hrest1
        simp at hrest1
      · intro ch hch
        have : ch ∈ rest := hch
        have := List.all_eq_true.1 hrest2 ch this
        simpa using this
      · apply string_ext
        show s.data = (g ++ "-" ++ ⟨rest⟩).data
        have hdecomp : s.toList.take g.toList.length ++
            s.toList.drop g.toList.length = s.toList :=
          List.take_append_drop _ _
        rw [htake2, hdrop] at hdecomp
        have : (g ++ "-" ++ (⟨rest⟩ : String)).data = g.data ++ '-' :: rest := by
          simp [String.data_append]
        rw [this]
        exact hdecomp.symm

/-- C3 counterexample: the claim quantifies over every group string, but for
the group `"a.b"` the interpolated `.` is a regular-expression wildcard: the
exclusion test classifies `"axb-esm"` as belonging to group `"a.b"` although
`"axb-esm"` is not `"a.b"` followed by a hyphen and a variant. -/
theorem group_match_spec_counterexample :
    regexTest "a.b" "axb-esm" = true ∧ ¬ specGroupMember "a.b" "axb-esm" := by
  refine ⟨by decide, ?_⟩
  rw [specGroupMember_iff]
  decide

/-- C3 (amended): for every group string consisting only of characters that
are not regular-expression metacharacters, the exclusion test classifies an
identifier as belonging to the group iff it is the group followed by a
literal hyphen and one or more non-hyphen characters; in particular
`"test-pack-esm"` is not classified into group `"test-package"` and counts
as a pending cross-group dependency. -/
theorem group_match_iff_literal (g s : String) (hg : literalGroup g = true) :
    (regexTest g s = true ↔ specGroupMember g s) ∧
    regexTest "test-package" "test-pack-esm" = false ∧
    "test-pack-esm" ∈ otherGroupPending "test-package" (some .esm)
      ⟨["test-pack-esm"], [], []⟩ := by
  refine ⟨?_, by decide, by decide⟩
  rw [regexTest_eq_specB g s hg]
  exact (specGroupMember_iff g s).symm

/-- Witness for C3's amended claim at the partial-prefix scenario. -/
theorem group_match_iff_literal_witness :
    ((regexTest "test-package" "test-pack-esm" = true ↔
      specGroupMember "test-package" "test-pack-esm") ∧
    regexTest "test-package" "test-pack-esm" = false ∧
    "test-pack-esm" ∈ otherGroupPending "test-package" (some .esm)
      ⟨["test-pack-esm"], [], []⟩) :=
  group_match_iff_literal "test-package" "test-pack-esm" (by decide)

theorem gateOnStart_mgr_registerBuild (pkg : String) (fmt : Option Format)
    (s : BuildStateManager) :
    (gateOnStart pkg fmt s).mgr = (registerBuild s (buildIdentifier pkg fmt)).1 := by
  rw [gateOnStart_eq]
  split <;> rfl

theorem gateStep_inv (cap : List String) (g g1 : GateState) (op : GateOp)
    (hstep : gateStep g op = .ok g1) (hinv : GateInv cap g) : GateInv cap g1 := by
  cases op with
  | register i =>
      have heq : gateStep g (.register i) =
          .ok { g with mgr := (registerBuild g.mgr i).1 } := rfl
      rw [heq] at hstep
      obtain rfl := Except.ok.inj hstep
      rcases hinv with ⟨h1, h2, d, hd, hdc⟩ | ⟨h1, h2, h3⟩
      · exact Or.inl ⟨h1, h2, d, hd, hdc⟩
      · exact Or.inr ⟨h1, h2, h3⟩
  | complete i =>
      by_cases hreg : i ∈ g.mgr.registeredBuilds
      · by_cases hcom : i ∈ g.mgr.completedBuilds
        · have heq : gateStep g (.complete i) = .ok g := by
            simp [gateStep, completeBuild, hreg, hcom]
          rw [heq] at hstep
          obtain rfl := Except.ok.inj hstep
          exact hinv
        · rcases hw : g.waiting with _ | cap'
          · have heq : gateStep g (.complete i) = .ok
                { mgr := markCompleted g.mgr i, waiting := none,
                  resolved := g.resolved } := by
              simp [gateStep, completeBuild, hreg, hcom, hw]
            rw [heq] at hstep
            obtain rfl := Except.ok.inj hstep
            rcases hinv with ⟨h1, _, _⟩ | ⟨_, h2, h3⟩
            · rw [hw] at h1
              cases h1
            · refine Or.inr ⟨rfl, h2, ?_⟩
              intro d hd
              have hdc := h3 d hd
              simp only [isBuildCompleted, markCompleted] at hdc ⊢
              simp at hdc ⊢
              exact Or.inl hdc
          · rcases hinv with ⟨h1, h2, hex⟩ | ⟨h1, _, _⟩
            swap
            · rw [hw] at h1
              cases h1
            obtain rfl : cap' = cap := by
              rw [hw] at h1
              exact Option.some.inj h1
            rw [hw] at h1
            by_cases hcond : i ∈ cap' ∧ ∀ x ∈ cap',
                isBuildCompleted (markCompleted g.mgr i) x = true
            · have heq : gateStep g (.complete i) = .ok
                  { mgr := markCompleted g.mgr i, waiting := none,
                    resolved := true } := by
                simp [gateStep, completeBuild, hreg, hcom, hw, hcond]
                exact hcond.2
              rw [heq] at hstep
              obtain rfl := Except.ok.inj hstep
              exact Or.inr ⟨rfl, rfl, hcond.2⟩
            · have heq : gateStep g (.complete i) = .ok
                  { mgr := markCompleted g.mgr i, waiting := some cap',
                    resolved := g.resolved } := by
                simp [gateStep, completeBuild, hreg, hcom, hw, hcond]
              rw [heq] at hstep
              obtain rfl := Except.ok.inj hstep
              refine Or.inl ⟨rfl, h2, ?_⟩
              by_cases hic : i ∈ cap'
              · have hnall : ¬ ∀ x ∈ cap',
                    isBuildCompleted (markCompleted g.mgr i) x = true :=
                  fun hall => hcond ⟨hic, hall⟩
                push_neg at hnall
                obtain ⟨d, hd, hdc⟩ := hnall
                exact ⟨d, hd, by simpa using hdc⟩
              · obtain ⟨d, hd, hdc⟩ := hex
                have hdi : d ≠ i := fun h => hic (h ▸ hd)
                refine ⟨d, hd, ?_⟩
                simp only [isBuildCompleted, markCompleted] at hdc ⊢
                simp at hdc ⊢
                exact ⟨hdc, hdi⟩
      · exfalso
        have h := hstep
        simp [gateStep, completeBuild, hreg] at h

theorem gateRun_inv (cap : List String) :
    ∀ (ops : List GateOp) (g g1 : GateState),
      gateRun g ops = .ok g1 → GateInv cap g → GateInv cap g1 := by
  intro ops
  induction ops with
  | nil =>
      intro g g1 h hi
      have : g = g1 := by
        simpa [gateRun] using h
      exact this ▸ hi
  | cons op rest ih =>
      intro g g1 h hi
      cases hstep : gateStep g op with
      | error e =>
          rw [gateRun, hstep] at h
          cases h
      | ok g2 =>
          rw [gateRun, hstep] at h
          exact ih g2 g1 h (gateStep_inv cap g g2 op hstep hi)

theorem gateOnStart_inv (pkg : String) (fmt : Option Format)
    (s : BuildStateManager) (cap : List String)
    (hstart : (gateOnStart pkg fmt s).waiting = some cap) :
    GateInv cap (gateOnStart pkg fmt s) := by
  rw [gateOnStart_eq] at hstart ⊢
  by_cases hA : ((otherGroupPending pkg fmt s).all fun i =>
      isBuildCompleted (registerBuild s (buildIdentifier pkg fmt)).1 i) = true
  · rw [if_pos hA] at hstart
    cases hstart
  · rw [if_neg hA] at hstart ⊢
    have hcap : otherGroupPending pkg fmt s = cap := by
      simpa using hstart
    refine Or.inl ⟨by simp [hcap], rfl, ?_⟩
    rw [List.all_eq_true] at hA
    push_neg at hA
    obtain ⟨d, hd, hdc⟩ := hA
    refine ⟨d, hcap ▸ hd, ?_⟩
    show isBuildCompleted (registerBuild s (buildIdentifier pkg fmt)).1 d = false
    exact Bool.eq_false_iff.2 hdc

/-- C1: when the start hook captures a non-empty other-group pending set and
returns a pending operation, the operation settles exactly when every member
of the captured set has completed — completing a proper subset leaves it
unsettled, completing the last member settles it — and events after the
check never change the captured wait set. -/
theorem gate_waits_for_captured_set (pkg : String) (fmt : Option Format)
    (s : BuildStateManager) (cap : List String) (ops : List GateOp) (g : GateState)
    (hstart : (gateOnStart pkg fmt s).waiting = some cap)
    (hrun : gateRun (gateOnStart pkg fmt s) ops = .ok g) :
    cap ≠ [] ∧
    (g.waiting = some cap ∨ g.waiting = none) ∧
    (g.resolved = true ↔ ∀ d ∈ cap, isBuildCompleted g.mgr d = true) := by
  have hinv0 := gateOnStart_inv pkg fmt s cap hstart
  have hcapne : cap ≠ [] := by
    rcases hinv0 with ⟨_, _, d, hd, _⟩ | ⟨h1, _, _⟩
    · exact List.ne_nil_of_mem hd
    · rw [hstart] at h1
      cases h1
  have hinv := gateRun_inv cap ops _ g hrun hinv0
  refine ⟨hcapne, ?_, ?_⟩
  · rcases hinv with ⟨h1, _, _⟩ | ⟨h1, _, _⟩
    · exact Or.inl h1
    · exact Or.inr h1
  · constructor
    · intro hres
      rcases hinv with ⟨_, h2, _⟩ | ⟨_, _, h3⟩
      · rw [hres] at h2
        cases h2
      · exact h3
    · intro hall
      rcases hinv with ⟨_, _, d, hd, hdc⟩ | ⟨_, h2, _⟩
      · rw [hall d hd] at hdc
        cases hdc
      · exact h2

/-- Witness for C1 at the multiple-dependencies scenario: with `"dep-1"` and
`"dep-2"` registered and pending, starting `"main"`/`esm` captures both;
completing only `"dep-1"` leaves the operation unsettled, completing
`"dep-2"` as well settles it. -/
theorem gate_waits_for_captured_set_witness :
    (["dep-1", "dep-2"] ≠ ([] : List String) ∧
      ((⟨⟨["dep-1", "dep-2", "main-esm"], ["dep-1"], []⟩,
          some ["dep-1", "dep-2"], false⟩ : GateState).waiting =
            some ["dep-1", "dep-2"] ∨
        (⟨⟨["dep-1", "dep-2", "main-esm"], ["dep-1"], []⟩,
          some ["dep-1", "dep-2"], false⟩ : GateState).waiting = none) ∧
      ((⟨⟨["dep-1", "dep-2", "main-esm"], ["dep-1"], []⟩,
          some ["dep-1", "dep-2"], false⟩ : GateState).resolved = true ↔
        ∀ d ∈ ["dep-1", "dep-2"],
          isBuildCompleted
            (⟨⟨["dep-1", "dep-2", "main-esm"], ["dep-1"], []⟩,
              some ["dep-1", "dep-2"], false⟩ : GateState).mgr d = true)) ∧
    (["dep-1", "dep-2"] ≠ ([] : List String) ∧
      ((⟨⟨["dep-1", "dep-2", "main-esm"], ["dep-1", "dep-2"], []⟩,
          none, true⟩ : GateState).waiting = some ["dep-1", "dep-2"] ∨
        (⟨⟨["dep-1", "dep-2", "main-esm"], ["dep-1", "dep-2"], []⟩,
          none, true⟩ : GateState).waiting = none) ∧
      ((⟨⟨["dep-1", "dep-2", "main-esm"], ["dep-1", "dep-2"], []⟩,
          none, true⟩ : GateState).resolved = true ↔
        ∀ d ∈ ["dep-1", "dep-2"],
          isBuildCompleted
            (⟨⟨["dep-1", "dep-2", "main-esm"], ["dep-1", "dep-2"], []⟩,
              none, true⟩ : GateState).mgr d = true)) :=
  ⟨gate_waits_for_captured_set "main" (some .esm) ⟨["dep-1", "dep-2"], [], []⟩
      ["dep-1", "dep-2"] [.complete "dep-1"] _ rfl rfl,
    gate_waits_for_captured_set "main" (some .esm) ⟨["dep-1", "dep-2"], [], []⟩
      ["dep-1", "dep-2"] [.complete "dep-1", .complete "dep-2"] _ rfl rfl⟩

/-- Witness for C5 at the fresh manager, one listener and identifier `"x"`. -/
theorem complete_idempotent_witness :
    (stepOp (stepOp (stepOp (onBuildCompleted initState 0, []) (.register "x"))
        (.complete "x")) (.complete "x") =
      stepOp (stepOp (onBuildCompleted initState 0, []) (.register "x")) (.complete "x")) ∧
    (stepOp (stepOp (onBuildCompleted initState 0, []) (.register "x")) (.complete "x")).2 =
      [] ++ (onBuildCompleted initState 0).buildCompletionCallbacks.map (fun c => (c, "x")) ∧
    ((onBuildCompleted initState 0).buildCompletionCallbacks.Nodup →
      ∀ c ∈ (onBuildCompleted initState 0).buildCompletionCallbacks,
        (stepOp (stepOp (onBuildCompleted initState 0, []) (.register "x"))
          (.complete "x")).2.count (c, "x") = ([] : Log).count (c, "x") + 1) ∧
    (stepOp (stepOp (onBuildCompleted initState 0, []) (.register "x"))
      (.complete "x")).1.completedBuilds.count "x" = 1 :=
  complete_idempotent (onBuildCompleted initState 0) [] "x" (by decide)

end SeqBuild
